import Mathlib

/-!
# Verification of the Apple Books highlight sync pipeline

A shallow embedding of `src/main.ts` (`syncHighlights` and its helpers).
JavaScript strings are Lean `String`s; the JS objects used as insertion-ordered
string-keyed records (`annotationData`, `finalData`) are association lists in
insertion order; the Obsidian vault collaborator is an explicit state of
folders and files.  Both separators used by the pipeline (`"@@@"` for rows and
`"|||"` for fields) are triples of a single character, so JS
`String.prototype.split` on them is embedded as a left-to-right scan for a
triple of one character.
-/

namespace AppleBooks

/-- JS `s.split(sep)` for the three-character separator `⟨c,c,c⟩`, on the
character list of the string: scan left to right, cut at each leftmost,
non-overlapping occurrence of the separator.  `main.ts` only splits on the
concrete separators `"@@@"` and `"|||"`, both triples of one character. -/
def splitTriple (c : Char) : List Char → List (List Char)
  | x :: y :: z :: rest =>
      if x = c ∧ y = c ∧ z = c then [] :: splitTriple c rest
      else
        match splitTriple c (y :: z :: rest) with
        | [] => [[x]]
        | r :: rs => (x :: r) :: rs
  | s => [s]

/-- Whether a character list contains three consecutive occurrences of `c`,
i.e. contains the separator `⟨c,c,c⟩` as a contiguous substring. -/
def hasTriple (c : Char) : List Char → Bool
  | x :: y :: z :: rest =>
      (x = c && y = c && z = c) || hasTriple c (y :: z :: rest)
  | _ => false

/-- JS `s.split(sep)` on `String`, for a separator that is a triple of `c`. -/
def jsSplitTriple (c : Char) (s : String) : List String :=
  (splitTriple c s.data).map String.mk

/-- `stdout.split("@@@").filter((a) => !!a)` from `main.ts` (lines 121–123 and
153–155): split the raw query output into rows and drop empty chunks (for a
string, JS `!!a` is false exactly when `a` is empty). -/
def splitRows (stdout : String) : List String :=
  (jsSplitTriple '@' stdout).filter (fun a => a ≠ "")

/-- `row.split("|||")` from `main.ts` (lines 131 and 156). -/
def splitFields (row : String) : List String :=
  jsSplitTriple '|' row

/-- JS `s.endsWith(suffix)`: whether `suffix` is a suffix of `s`, as a
suffix check on the character lists. -/
def jsEndsWith (s suffix : String) : Bool :=
  suffix.data.isSuffixOf s.data

/-- JS indexing `row[i]` on an array of strings: the element when present,
and the string rendering of `undefined` otherwise (the only reads of an
out-of-range index in the pipeline flow into template literals or object
keys, where JS renders `undefined` as the string "undefined"). -/
def jsIdx (row : List String) (i : Nat) : String :=
  row.getD i "undefined"

/-- `HighlightData` from `main.ts` lines 125–128. -/
structure HighlightData where
  annotationId : String
  selectedText : String
deriving DecidableEq, Repr

/-- The record type of `finalData` entries, `main.ts` lines 158–166. -/
structure SyncedBook where
  bookId : String
  authorName : String
  bookTitle : String
  highlights : List HighlightData
deriving DecidableEq, Repr

/-- Reading `acc[k]` on a JS object used as a string-keyed record,
embedded as an insertion-ordered association list. -/
def recordGet {α : Type} : List (String × α) → String → Option α
  | [], _ => none
  | p :: rest, k => if p.1 = k then some p.2 else recordGet rest k

/-- Writing `acc[k] = v` on a JS object used as a string-keyed record:
an existing key keeps its position, a new key is appended at the end
(JS property insertion order). -/
def recordSet {α : Type} : List (String × α) → String → α → List (String × α)
  | [], k, v => [(k, v)]
  | p :: rest, k, v => if p.1 = k then (k, v) :: rest else p :: recordSet rest k v

/-- The grouping `reduce` of `main.ts` lines 130–141: iterate field rows,
create the array for `row[0]` on first occurrence, and push
`{annotationId: row[1], selectedText: row[2]}` onto it. -/
def groupAnnotations (rows : List (List String)) : List (String × List HighlightData) :=
  rows.foldl
    (fun acc row =>
      recordSet acc (jsIdx row 0)
        (((recordGet acc (jsIdx row 0)).getD []) ++
          [⟨jsIdx row 1, jsIdx row 2⟩]))
    []

/-- The catalog query string built in `main.ts` lines 143–147 from the keys
of the grouped annotation record. -/
def booksDataSelectQuery (annotationData : List (String × List HighlightData)) : String :=
  "SELECT ZASSETID,ZAUTHOR,ZTITLE from ZBKLIBRARYASSET where ZASSETID in (" ++
    String.intercalate "," (annotationData.map (fun p => "'" ++ p.1 ++ "'")) ++ ")"

/-- The join loop of `main.ts` lines 167–179: for each catalog row, skip it
when its `bookId` has no grouped annotations, otherwise store a `SyncedBook`
under that `bookId` in `finalData`. -/
def joinBooks (annotationData : List (String × List HighlightData))
    (booksData : List (List String)) : List (String × SyncedBook) :=
  booksData.foldl
    (fun finalData bookData =>
      match recordGet annotationData (jsIdx bookData 0) with
      | none => finalData
      | some hs =>
          recordSet finalData (jsIdx bookData 0)
            ⟨jsIdx bookData 0, jsIdx bookData 1, jsIdx bookData 2, hs⟩)
    []

/-- The document body template literal of `main.ts` lines 193–199. -/
def renderBody (book : SyncedBook) : String :=
  "## Metadata\n- Author: " ++ book.authorName ++
    "\n- [Apple Books Link](ibooks://assetid/" ++ book.bookId ++
    ")\n\n## Highlights\n" ++
    String.intercalate "\n\n---\n" (book.highlights.map HighlightData.selectedText)

/-- The path of the document written for a book, `main.ts` line 192. -/
def docPath (folder : String) (book : SyncedBook) : String :=
  folder ++ "/" ++ book.bookTitle ++ ".md"

/-- Modelled from the spec: the Obsidian vault collaborator
("capability to query the abstract file at a path, delete a file/folder
(recursive), create a folder, create a file with text content at a path"),
as a state of existing folder paths and files with contents. -/
structure Vault where
  folders : List String
  files : List (String × String)
deriving DecidableEq, Repr

/-- Whether path `p` lies strictly inside folder `folder`. -/
def underFolder (folder p : String) : Bool :=
  (folder ++ "/").data.isPrefixOf p.data

/-- Modelled from the spec: `vault.getAbstractFileByPath(p)` is non-null
exactly when some abstract file (folder or file) exists at path `p`. -/
def vaultHasPath (v : Vault) (p : String) : Bool :=
  v.folders.contains p || v.files.any (fun f => f.1 == p)

/-- Modelled from the spec: recursive `vault.delete` removes the abstract
file at the path and, for a folder, everything inside it. -/
def vaultDeleteRecursive (v : Vault) (p : String) : Vault :=
  { folders := v.folders.filter (fun f => ¬(f = p ∨ underFolder p f = true)),
    files := v.files.filter (fun f => ¬(f.1 = p ∨ underFolder p f.1 = true)) }

/-- Modelled from the spec: `vault.createFolder p`. -/
def vaultCreateFolder (v : Vault) (p : String) : Vault :=
  { v with folders := v.folders ++ [p] }

/-- Modelled from the spec: `vault.create p content` publishes a document at
path `p`; on a colliding path the later write overwrites the earlier one
("two books sharing an identical title collide and overwrite one another"). -/
def vaultCreateFile (v : Vault) (p content : String) : Vault :=
  { v with files := recordSet v.files p content }

/-- The environment of one `syncHighlights` run: the two container-directory
listings (`none` when `fs.readdir` rejects), the stdout of the annotation
query (`none` when `exec` rejects), the stdout of the catalog query as a
function of the query string (`none` when `exec` rejects), the configured
highlights folder, and the starting vault state. -/
structure SyncInput where
  annotationDirListing : Option (List String)
  booksDirListing : Option (List String)
  annotationExec : Option String
  booksExec : String → Option String
  highlightsFolder : String
  vault : Vault

/-- How a `syncHighlights` run ended: an early `return` after a "not found"
notice, a rejected promise from one of the two `exec` calls, or completion. -/
inductive SyncOutcome where
  | annotationDBMissing
  | booksDBMissing
  | annotationExecFailed
  | booksExecFailed
  | completed
deriving DecidableEq, Repr

/-- The observable effects of one `syncHighlights` run. -/
structure SyncResult where
  outcome : SyncOutcome
  notices : List String
  annotationQueryRun : Bool
  booksQueryRun : Option String
  folderDeleted : Bool
  folderCreated : Bool
  docsCreated : List (String × String)
  vault : Vault
deriving DecidableEq, Repr

/-- A run that stopped before touching the vault. -/
def abortedResult (outcome : SyncOutcome) (notices : List String)
    (annotationQueryRun : Bool) (booksQueryRun : Option String) (v : Vault) : SyncResult :=
  { outcome := outcome, notices := notices,
    annotationQueryRun := annotationQueryRun, booksQueryRun := booksQueryRun,
    folderDeleted := false, folderCreated := false, docsCreated := [], vault := v }

/-- `syncHighlights` from `main.ts` lines 77–204, as a function from the run
environment to its observable effects.  Each step mirrors the source:
directory listings with `.catch(() => [])`, `.filter(endsWith ".sqlite").first()`,
the two notices and early returns, the two `exec` calls, row parsing,
grouping, the catalog query built from the grouped keys, the join, the
delete-if-exists / recreate of the highlights folder, and one
`vault.create` per joined book. -/
def syncHighlights (inp : SyncInput) : SyncResult :=
  let annotationDBFolderFiles := inp.annotationDirListing.getD []
  match (annotationDBFolderFiles.filter (fun f => jsEndsWith f ".sqlite")).head? with
  | none =>
      abortedResult .annotationDBMissing
        ["Apple Books Annotation Database not found, cannot sync."] false none inp.vault
  | some _ =>
    let booksDBFolderFiles := inp.booksDirListing.getD []
    match (booksDBFolderFiles.filter (fun f => jsEndsWith f ".sqlite")).head? with
    | none =>
        abortedResult .booksDBMissing
          ["Apple Books Books Database not found, cannot sync."] false none inp.vault
    | some _ =>
      match inp.annotationExec with
      | none => abortedResult .annotationExecFailed [] true none inp.vault
      | some annotationStdout =>
        let annotationDBRawRows := splitRows annotationStdout
        let annotationData := groupAnnotations (annotationDBRawRows.map splitFields)
        let booksQuery := booksDataSelectQuery annotationData
        match inp.booksExec booksQuery with
        | none => abortedResult .booksExecFailed [] true (some booksQuery) inp.vault
        | some booksStdout =>
          let booksData := (splitRows booksStdout).map splitFields
          let finalData := joinBooks annotationData booksData
          let existed := vaultHasPath inp.vault inp.highlightsFolder
          let v1 :=
            if existed then vaultDeleteRecursive inp.vault inp.highlightsFolder
            else inp.vault
          let v2 := vaultCreateFolder v1 inp.highlightsFolder
          let docs := finalData.map
            (fun p => (docPath inp.highlightsFolder p.2, renderBody p.2))
          let v3 := docs.foldl (fun v d => vaultCreateFile v d.1 d.2) v2
          { outcome := .completed,
            notices := ["Successfully finished Apple Books Highlight Sync"],
            annotationQueryRun := true,
            booksQueryRun := some booksQuery,
            folderDeleted := existed,
            folderCreated := true,
            docsCreated := docs,
            vault := v3 }

/-- First-occurrence deduplication: the order in which a JS object's keys
appear when each key is appended on its first occurrence. -/
def dedupKeepFirst (l : List String) : List String :=
  l.foldl (fun ks x => if x ∈ ks then ks else ks ++ [x]) []

/-- Modelled from the spec: the two-level separator encoding of a field
matrix ("fields joined by the field separator, rows joined by the row
separator"), the shape of the raw blob the query engine emits. -/
def encodeMatrix (m : List (List String)) : String :=
  String.intercalate "@@@" (m.map (String.intercalate "|||"))

/-- The parser of `main.ts`: split on the row separator, discard empty
chunks, split each remaining chunk on the field separator. -/
def parseMatrix (s : String) : List (List String) :=
  (splitRows s).map splitFields

/-! ## Lemmas about the insertion-ordered record operations -/

theorem recordGet_set_self {α : Type} (acc : List (String × α)) (k : String) (v : α) :
    recordGet (recordSet acc k v) k = some v := by
  induction acc with
  | nil => simp [recordSet, recordGet]
  | cons p rest ih =>
      by_cases h : p.1 = k <;> simp [recordSet, recordGet, h, ih]

theorem recordGet_set_ne {α : Type} (acc : List (String × α)) (k k' : String) (v : α)
    (h : k' ≠ k) : recordGet (recordSet acc k v) k' = recordGet acc k' := by
  induction acc with
  | nil => simp [recordSet, recordGet, Ne.symm h]
  | cons p rest ih =>
      by_cases hp : p.1 = k
      · subst hp
        simp [recordSet, recordGet, Ne.symm h]
      · simp only [recordSet, if_neg hp]
        by_cases hp' : p.1 = k' <;> simp [recordGet, hp', ih]

theorem keys_recordSet {α : Type} (acc : List (String × α)) (k : String) (v : α) :
    (recordSet acc k v).map Prod.fst =
      if k ∈ acc.map Prod.fst then acc.map Prod.fst else acc.map Prod.fst ++ [k] := by
  induction acc with
  | nil => simp [recordSet]
  | cons p rest ih =>
      by_cases h : p.1 = k
      · simp [recordSet, h]
      · simp only [recordSet, if_neg h, List.map_cons, ih]
        by_cases hm : k ∈ rest.map Prod.fst <;>
          simp [hm, Ne.symm h]

theorem recordGet_eq_none_iff {α : Type} (acc : List (String × α)) (k : String) :
    recordGet acc k = none ↔ k ∉ acc.map Prod.fst := by
  induction acc with
  | nil => simp [recordGet]
  | cons p rest ih =>
      by_cases h : p.1 = k
      · simp [recordGet, h, ih]
      · simp [recordGet, h, ih, Ne.symm h]

theorem recordGet_isSome_iff {α : Type} (acc : List (String × α)) (k : String) :
    (recordGet acc k).isSome = true ↔ k ∈ acc.map Prod.fst := by
  rw [Option.isSome_iff_ne_none, not_iff_comm, ← recordGet_eq_none_iff]

theorem keys_recordSet_nodup {α : Type} (acc : List (String × α)) (k : String) (v : α)
    (h : (acc.map Prod.fst).Nodup) : ((recordSet acc k v).map Prod.fst).Nodup := by
  rw [keys_recordSet]
  by_cases hm : k ∈ acc.map Prod.fst
  · simpa [hm]
  · simpa [hm, List.nodup_append] using h

theorem length_recordSet {α : Type} (acc : List (String × α)) (k : String) (v : α) :
    (recordSet acc k v).length =
      if k ∈ acc.map Prod.fst then acc.length else acc.length + 1 := by
  have h := keys_recordSet acc k v
  by_cases hm : k ∈ acc.map Prod.fst
  · have := congrArg List.length h
    simpa [hm] using this
  · have := congrArg List.length h
    simpa [hm] using this

/-! ## Lemmas about the triple-separator split -/

theorem splitTriple_short (c : Char) (s : List Char) (h : s.length < 3) :
    splitTriple c s = [s] := by
  match s, h with
  | [], _ => rfl
  | [x], _ => rfl
  | [x, y], _ => rfl

theorem splitTriple_cons3 (c x y z : Char) (rest : List Char) :
    splitTriple c (x :: y :: z :: rest) =
      if x = c ∧ y = c ∧ z = c then [] :: splitTriple c rest
      else
        match splitTriple c (y :: z :: rest) with
        | [] => [[x]]
        | r :: rs => (x :: r) :: rs := by
  rw [splitTriple]

theorem splitTriple_ne_nil (c : Char) (s : List Char) : splitTriple c s ≠ [] := by
  rw [splitTriple.eq_def]
  split
  · split
    · simp
    · split <;> simp
  · simp

theorem hasTriple_cons_false (c x y z : Char) (rest : List Char)
    (h : hasTriple c (x :: y :: z :: rest) = false) :
    ¬(x = c ∧ y = c ∧ z = c) ∧ hasTriple c (y :: z :: rest) = false := by
  simp only [hasTriple, Bool.or_eq_false_iff] at h
  refine ⟨fun hc => ?_, h.2⟩
  have := h.1
  simp [hc.1, hc.2.1, hc.2.2] at this

theorem splitTriple_of_not_hasTriple (c : Char) (l : List Char)
    (h : hasTriple c l = false) : splitTriple c l = [l] := by
  induction l with
  | nil => rfl
  | cons x t ih =>
      match t, h, ih with
      | [], _, _ => rfl
      | [y], _, _ => rfl
      | y :: z :: rest, h, ih =>
          obtain ⟨h1, h2⟩ := hasTriple_cons_false c x y z rest h
          rw [splitTriple_cons3, if_neg h1, ih h2]

theorem hasTriple_cons_of_ne (c d : Char) (b : List Char) (hd : d ≠ c) :
    hasTriple c (d :: b) = hasTriple c b := by
  match b with
  | [] => rfl
  | [e] => rfl
  | e :: f :: r => simp [hasTriple, hd]

theorem hasTriple_append_cons (c d : Char) (a b : List Char) (hd : d ≠ c) :
    hasTriple c (a ++ d :: b) = (hasTriple c a || hasTriple c b) := by
  induction a with
  | nil => simpa using hasTriple_cons_of_ne c d b hd
  | cons x t ih =>
      match t, ih with
      | [], _ =>
          have : hasTriple c ([x] ++ d :: b) = hasTriple c (x :: d :: b) := rfl
          rw [this]
          match b with
          | [] => rfl
          | e :: r =>
              have h2 : hasTriple c (d :: e :: r) = hasTriple c (e :: r) :=
                hasTriple_cons_of_ne c d (e :: r) hd
              simp [hasTriple, hd, h2]
      | [y], ih =>
          have htail : hasTriple c (y :: d :: b) = (hasTriple c [y] || hasTriple c b) := by
            simpa using ih
          show hasTriple c (x :: y :: d :: b) = (hasTriple c [x, y] || hasTriple c b)
          have e1 : hasTriple c (x :: y :: d :: b)
              = ((x = c && y = c && d = c) || hasTriple c (y :: d :: b)) := rfl
          rw [e1, htail]
          simp [hd, hasTriple]
      | y :: z :: r, ih =>
          have htail : hasTriple c ((y :: z :: r) ++ d :: b) =
              (hasTriple c (y :: z :: r) || hasTriple c b) := ih
          simp only [List.cons_append] at htail ⊢
          simp [hasTriple, htail, Bool.or_assoc]

theorem hasTriple_append_triple (c d : Char) (a b : List Char) (hd : d ≠ c) :
    hasTriple c (a ++ d :: d :: d :: b) = (hasTriple c a || hasTriple c b) := by
  rw [hasTriple_append_cons c d a (d :: d :: b) hd,
    hasTriple_cons_of_ne c d (d :: b) hd, hasTriple_cons_of_ne c d b hd]

theorem splitTriple_append (c : Char) (a b : List Char)
    (ha : hasTriple c a = false) (hlast : a.getLast? ≠ some c) :
    splitTriple c (a ++ c :: c :: c :: b) = a :: splitTriple c b := by
  induction a with
  | nil => simp [splitTriple_cons3]
  | cons x t ih =>
      match t, ha, hlast, ih with
      | [], ha, hlast, _ =>
          have hx : x ≠ c := by simpa using hlast
          show splitTriple c (x :: c :: c :: c :: b) = [x] :: splitTriple c b
          rw [splitTriple_cons3, if_neg (by simp [hx]), splitTriple_cons3,
            if_pos ⟨rfl, rfl, rfl⟩]
      | [y], ha, hlast, _ =>
          have hy : y ≠ c := by simpa using hlast
          show splitTriple c (x :: y :: c :: c :: c :: b) = [x, y] :: splitTriple c b
          rw [splitTriple_cons3, if_neg (by simp [hy]), splitTriple_cons3,
            if_neg (by simp [hy]), splitTriple_cons3, if_pos ⟨rfl, rfl, rfl⟩]
      | y :: z :: rest, ha, hlast, ih =>
          obtain ⟨h1, h2⟩ := hasTriple_cons_false c x y z rest ha
          have hlast' : (y :: z :: rest).getLast? ≠ some c := by
            rwa [List.getLast?_cons_cons] at hlast
          have ihr := ih h2 hlast'
          show splitTriple c (x :: ((y :: z :: rest) ++ c :: c :: c :: b)) =
            (x :: y :: z :: rest) :: splitTriple c b
          simp only [List.cons_append] at ihr ⊢
          rw [splitTriple_cons3, if_neg h1, ihr]

theorem intercalate_cons₂ {α : Type} (sep a b : List α) (l : List (List α)) :
    List.intercalate sep (a :: b :: l) = a ++ sep ++ List.intercalate sep (b :: l) := by
  simp [List.intercalate, List.intersperse_cons_cons, List.append_assoc]

theorem splitTriple_intercalate (c : Char) (ls : List (List Char)) (hne : ls ≠ [])
    (hml : ∀ l ∈ ls, hasTriple c l = false)
    (hlast : ∀ l ∈ ls.dropLast, l.getLast? ≠ some c) :
    splitTriple c (List.intercalate [c, c, c] ls) = ls := by
  induction ls with
  | nil => cases hne rfl
  | cons a ls ih =>
      cases ls with
      | nil =>
          simp only [List.intercalate, List.intersperse_singleton, List.flatten,
            List.append_nil]
          exact splitTriple_of_not_hasTriple c a (hml a (by simp))
      | cons b rest =>
          rw [intercalate_cons₂]
          have ha : hasTriple c a = false := hml a (by simp)
          have halast : a.getLast? ≠ some c := hlast a (by simp)
          rw [List.append_assoc]
          have : ([c, c, c] : List Char) ++ List.intercalate [c, c, c] (b :: rest) =
              c :: c :: c :: List.intercalate [c, c, c] (b :: rest) := rfl
          rw [this, splitTriple_append c a _ ha halast,
            ih (by simp) (fun l hl => hml l (by simp [hl]))
              (fun l hl => hlast l (by
                rcases rest with _ | ⟨r, rs⟩
                · simp at hl
                · simpa using Or.inr (by simpa using hl)))]

theorem hasTriple_intercalate_fields (c d : Char) (fs : List (List Char)) (hcd : d ≠ c)
    (h : ∀ f ∈ fs, hasTriple c f = false) :
    hasTriple c (List.intercalate [d, d, d] fs) = false := by
  induction fs with
  | nil => rfl
  | cons f fs ih =>
      cases fs with
      | nil => simpa [List.intercalate] using h f (by simp)
      | cons g rest =>
          rw [intercalate_cons₂, List.append_assoc]
          have e : ([d, d, d] : List Char) ++ List.intercalate [d, d, d] (g :: rest) =
              d :: d :: d :: List.intercalate [d, d, d] (g :: rest) := rfl
          rw [e, hasTriple_append_triple c d _ _ hcd]
          simp [h f (by simp), ih (fun l hl => h l (by simp [hl]))]

/-! ## Relating `String.intercalate` to `List.intercalate` on character data -/

theorem intercalate_eq_cons {α : Type} (sep x : List α) (xs : List (List α)) :
    List.intercalate sep (x :: xs) = x ++ (xs.map (fun a => sep ++ a)).flatten := by
  induction xs generalizing x with
  | nil => simp [List.intercalate]
  | cons b rest ih =>
      rw [intercalate_cons₂, ih b]
      simp [List.append_assoc]

theorem intercalate_go_data (s : String) (as : List String) : ∀ (acc : String),
    (String.intercalate.go acc s as).data =
      acc.data ++ (as.map (fun a => s.data ++ a.data)).flatten := by
  induction as with
  | nil => intro acc; simp [String.intercalate.go]
  | cons a as ih =>
      intro acc
      rw [String.intercalate.go, ih]
      simp [String.data_append, List.append_assoc]

theorem data_intercalate (s : String) (l : List String) :
    (String.intercalate s l).data = List.intercalate s.data (l.map String.data) := by
  cases l with
  | nil => rfl
  | cons a as =>
      show (String.intercalate.go a s as).data = _
      rw [intercalate_go_data, List.map_cons, intercalate_eq_cons, List.map_map]
      rfl

theorem data_jsSplitTriple (c : Char) (s : String) :
    (jsSplitTriple c s).map String.data = splitTriple c s.data := by
  rw [jsSplitTriple, List.map_map]
  have : String.data ∘ String.mk = id := rfl
  rw [this, List.map_id]

/-! ## Round trip of the two-level separator scheme -/

theorem splitFields_intercalate (row : List String)
    (hf : ∀ f ∈ row, hasTriple '|' f.data = false)
    (hl : ∀ f ∈ row.dropLast, f.data.getLast? ≠ some '|')
    (hne : String.intercalate "|||" row ≠ "") :
    splitFields (String.intercalate "|||" row) = row := by
  have hrow : row ≠ [] := by rintro rfl; exact hne rfl
  rw [splitFields, jsSplitTriple, data_intercalate]
  have h3 : ("|||" : String).data = ['|', '|', '|'] := rfl
  rw [h3, splitTriple_intercalate '|' (row.map String.data)
      (by simpa using hrow)
      (by intro l hl'
          obtain ⟨f, hf', rfl⟩ := List.mem_map.mp hl'
          exact hf f hf')
      (by intro l hl'
          rw [← List.map_dropLast] at hl'
          obtain ⟨f, hf', rfl⟩ := List.mem_map.mp hl'
          exact hl f hf'),
    List.map_map]
  have hid : String.mk ∘ String.data = id := rfl
  rw [hid, List.map_id]

theorem hasTriple_ser (row : List String)
    (hf : ∀ f ∈ row, hasTriple '@' f.data = false) :
    hasTriple '@' (String.intercalate "|||" row).data = false := by
  rw [data_intercalate]
  have h3 : ("|||" : String).data = ['|', '|', '|'] := rfl
  rw [h3]
  exact hasTriple_intercalate_fields '@' '|' (row.map String.data) (by decide)
    (by intro l hl
        obtain ⟨f, hf', rfl⟩ := List.mem_map.mp hl
        exact hf f hf')

theorem splitRows_encode (m : List (List String))
    (hrowTriple : ∀ row ∈ m, hasTriple '@' (String.intercalate "|||" row).data = false)
    (hrowLast : ∀ row ∈ m.dropLast,
      (String.intercalate "|||" row).data.getLast? ≠ some '@')
    (hrowNe : ∀ row ∈ m, String.intercalate "|||" row ≠ "") :
    splitRows (encodeMatrix m) = m.map (String.intercalate "|||") := by
  cases m with
  | nil => rfl
  | cons r rs =>
      rw [splitRows, encodeMatrix, jsSplitTriple, data_intercalate]
      have h3 : ("@@@" : String).data = ['@', '@', '@'] := rfl
      rw [h3, splitTriple_intercalate '@'
          (((r :: rs).map (String.intercalate "|||")).map String.data)
          (by simp)
          (by intro l hl'
              obtain ⟨s, hs, rfl⟩ := List.mem_map.mp hl'
              obtain ⟨row, hrow, rfl⟩ := List.mem_map.mp hs
              exact hrowTriple row hrow)
          (by intro l hl'
              rw [← List.map_dropLast, ← List.map_dropLast] at hl'
              obtain ⟨s, hs, rfl⟩ := List.mem_map.mp hl'
              obtain ⟨row, hrow, rfl⟩ := List.mem_map.mp hs
              exact hrowLast row hrow),
        List.map_map]
      have hid : String.mk ∘ String.data = id := rfl
      rw [hid, List.map_id, List.filter_eq_self.mpr]
      intro a ha
      obtain ⟨row, hrow, rfl⟩ := List.mem_map.mp ha
      simpa using hrowNe row hrow

/-! ## The grouping fold -/

theorem groupGo_get (rows : List (List String)) :
    ∀ (acc : List (String × List HighlightData)) (bid : String),
    recordGet (rows.foldl (fun acc row =>
        recordSet acc (jsIdx row 0)
          (((recordGet acc (jsIdx row 0)).getD []) ++
            [⟨jsIdx row 1, jsIdx row 2⟩])) acc) bid =
      if (recordGet acc bid).isSome || rows.any (fun r => jsIdx r 0 == bid)
      then some (((recordGet acc bid).getD []) ++
        (rows.filter (fun r => jsIdx r 0 == bid)).map
          (fun r => ⟨jsIdx r 1, jsIdx r 2⟩))
      else none := by
  induction rows with
  | nil =>
      intro acc bid
      cases h : recordGet acc bid <;> simp [h]
  | cons row rest ih =>
      intro acc bid
      rw [List.foldl_cons, ih]
      by_cases hk : jsIdx row 0 = bid
      · rw [hk, recordGet_set_self]
        cases h : recordGet acc bid <;>
          simp [h, hk, List.filter_cons, List.any_cons]
      · rw [recordGet_set_ne _ _ _ _ (Ne.symm hk)]
        cases h : recordGet acc bid <;>
          simp [h, hk, List.filter_cons, List.any_cons]

theorem groupGo_keys (rows : List (List String)) :
    ∀ (acc : List (String × List HighlightData)),
    ((rows.foldl (fun acc row =>
        recordSet acc (jsIdx row 0)
          (((recordGet acc (jsIdx row 0)).getD []) ++
            [⟨jsIdx row 1, jsIdx row 2⟩])) acc).map Prod.fst) =
      (rows.map (fun r => jsIdx r 0)).foldl
        (fun ks x => if x ∈ ks then ks else ks ++ [x]) (acc.map Prod.fst) := by
  induction rows with
  | nil => intro acc; rfl
  | cons row rest ih =>
      intro acc
      rw [List.foldl_cons, ih, List.map_cons, List.foldl_cons, keys_recordSet]

theorem groupAnnotations_get (rows : List (List String)) (bid : String) :
    recordGet (groupAnnotations rows) bid =
      if rows.any (fun r => jsIdx r 0 == bid)
      then some ((rows.filter (fun r => jsIdx r 0 == bid)).map
        (fun r => ⟨jsIdx r 1, jsIdx r 2⟩))
      else none := by
  rw [groupAnnotations, groupGo_get]
  simp [recordGet]

theorem groupAnnotations_keys (rows : List (List String)) :
    (groupAnnotations rows).map Prod.fst = dedupKeepFirst (rows.map (fun r => jsIdx r 0)) := by
  rw [groupAnnotations, groupGo_keys]
  rfl

/-! ## The join fold -/

theorem mem_keys_recordSet {α : Type} (acc : List (String × α)) (k bid : String) (v : α) :
    bid ∈ (recordSet acc k v).map Prod.fst ↔ bid ∈ acc.map Prod.fst ∨ bid = k := by
  rw [keys_recordSet]
  by_cases hm : k ∈ acc.map Prod.fst
  · simp only [hm, if_pos]
    constructor
    · exact Or.inl
    · rintro (h | rfl)
      · exact h
      · exact hm
  · simp [hm]

theorem joinGo_mem (ann : List (String × List HighlightData))
    (books : List (List String)) :
    ∀ (fd : List (String × SyncedBook)) (bid : String),
    (bid ∈ ((books.foldl (fun finalData bookData =>
        match recordGet ann (jsIdx bookData 0) with
        | none => finalData
        | some hs =>
            recordSet finalData (jsIdx bookData 0)
              ⟨jsIdx bookData 0, jsIdx bookData 1, jsIdx bookData 2, hs⟩) fd).map Prod.fst)) ↔
      (bid ∈ fd.map Prod.fst ∨
        (bid ∈ books.map (fun r => jsIdx r 0) ∧ (recordGet ann bid).isSome = true)) := by
  induction books with
  | nil => intro fd bid; simp
  | cons row rest ih =>
      intro fd bid
      rw [List.foldl_cons]
      cases h : recordGet ann (jsIdx row 0) with
      | none =>
          rw [ih]
          have hb : bid = jsIdx row 0 → ¬(recordGet ann bid).isSome = true := by
            rintro rfl hs
            rw [h] at hs
            cases hs
          simp only [List.map_cons, List.mem_cons]
          tauto
      | some hs =>
          rw [ih, mem_keys_recordSet]
          have hb : bid = jsIdx row 0 → (recordGet ann bid).isSome = true := by
            rintro rfl
            rw [h]
            rfl
          simp only [List.map_cons, List.mem_cons]
          tauto

theorem joinGo_nodup (ann : List (String × List HighlightData))
    (books : List (List String)) :
    ∀ (fd : List (String × SyncedBook)), (fd.map Prod.fst).Nodup →
    (((books.foldl (fun finalData bookData =>
        match recordGet ann (jsIdx bookData 0) with
        | none => finalData
        | some hs =>
            recordSet finalData (jsIdx bookData 0)
              ⟨jsIdx bookData 0, jsIdx bookData 1, jsIdx bookData 2, hs⟩) fd).map Prod.fst)).Nodup := by
  induction books with
  | nil => intro fd hfd; simpa using hfd
  | cons row rest ih =>
      intro fd hfd
      rw [List.foldl_cons]
      cases h : recordGet ann (jsIdx row 0) with
      | none => exact ih fd hfd
      | some hs => exact ih _ (keys_recordSet_nodup fd _ _ hfd)

theorem joinGo_sublist (ann : List (String × List HighlightData))
    (books : List (List String)) :
    ∀ (fd : List (String × SyncedBook)),
    List.Sublist
      ((books.foldl (fun finalData bookData =>
        match recordGet ann (jsIdx bookData 0) with
        | none => finalData
        | some hs =>
            recordSet finalData (jsIdx bookData 0)
              ⟨jsIdx bookData 0, jsIdx bookData 1, jsIdx bookData 2, hs⟩) fd).map Prod.fst)
      (fd.map Prod.fst ++ books.map (fun r => jsIdx r 0)) := by
  induction books with
  | nil => intro fd; simp
  | cons row rest ih =>
      intro fd
      rw [List.foldl_cons]
      cases h : recordGet ann (jsIdx row 0) with
      | none =>
          refine (ih fd).trans ?_
          rw [List.map_cons]
          exact List.Sublist.append_left (List.sublist_cons_self _ _) _
      | some hs =>
          refine (ih _).trans ?_
          rw [keys_recordSet]
          by_cases hm : jsIdx row 0 ∈ fd.map Prod.fst
          · rw [if_pos hm, List.map_cons]
            exact List.Sublist.append_left (List.sublist_cons_self _ _) _
          · rw [if_neg hm, List.map_cons, List.append_assoc, List.singleton_append]

theorem joinGo_get (ann : List (String × List HighlightData))
    (books : List (List String)) (bid : String) (hl : List HighlightData)
    (h : recordGet ann bid = some hl) :
    ∀ (fd : List (String × SyncedBook)),
    recordGet (books.foldl (fun finalData bookData =>
        match recordGet ann (jsIdx bookData 0) with
        | none => finalData
        | some hs =>
            recordSet finalData (jsIdx bookData 0)
              ⟨jsIdx bookData 0, jsIdx bookData 1, jsIdx bookData 2, hs⟩) fd) bid =
      match (books.filter (fun r => jsIdx r 0 == bid)).getLast? with
      | some row => some ⟨bid, jsIdx row 1, jsIdx row 2, hl⟩
      | none => recordGet fd bid := by
  induction books with
  | nil => intro fd; simp
  | cons row rest ih =>
      intro fd
      rw [List.foldl_cons]
      by_cases hk : jsIdx row 0 = bid
      · rw [hk, h]
        rw [ih]
        have hfilter : (row :: rest).filter (fun r => jsIdx r 0 == bid) =
            row :: rest.filter (fun r => jsIdx r 0 == bid) := by
          simp [List.filter_cons, hk]
        rw [hfilter]
        cases hfr : rest.filter (fun r => jsIdx r 0 == bid) with
        | nil => simp [recordGet_set_self, hk]
        | cons f fs =>
            rw [List.getLast?_cons_cons]
            cases hgl : (f :: fs).getLast? with
            | none => simp at hgl
            | some r => rfl
      · have hfilter : (row :: rest).filter (fun r => jsIdx r 0 == bid) =
            rest.filter (fun r => jsIdx r 0 == bid) := by
          simp [List.filter_cons, hk]
        rw [hfilter]
        cases hr : recordGet ann (jsIdx row 0) with
        | none => exact ih fd
        | some hs =>
            rw [ih]
            cases hfr : rest.filter (fun r => jsIdx r 0 == bid) |>.getLast? with
            | some r => rfl
            | none => simp [recordGet_set_ne _ _ _ _ (Ne.symm hk)]

/-! ## The vault write phase -/

theorem mem_recordSet {α : Type} (l : List (String × α)) (k : String) (v : α)
    (x : String × α) (h : x ∈ recordSet l k v) : x ∈ l ∨ x = (k, v) := by
  induction l with
  | nil => simpa [recordSet] using h
  | cons p rest ih =>
      by_cases hp : p.1 = k
      · rw [recordSet, if_pos hp] at h
        rcases List.mem_cons.mp h with rfl | h'
        · exact Or.inr rfl
        · exact Or.inl (List.mem_cons_of_mem _ h')
      · rw [recordSet, if_neg hp] at h
        rcases List.mem_cons.mp h with rfl | h'
        · exact Or.inl (List.mem_cons_self _ _)
        · rcases ih h' with h'' | h''
          · exact Or.inl (List.mem_cons_of_mem _ h'')
          · exact Or.inr h''

theorem createFold_files_mem (docs : List (String × String)) :
    ∀ (v : Vault) (f : String × String),
    f ∈ ((docs.foldl (fun v d => vaultCreateFile v d.1 d.2) v).files) →
      f ∈ v.files ∨ f ∈ docs := by
  induction docs with
  | nil => intro v f h; exact Or.inl h
  | cons d rest ih =>
      intro v f h
      rw [List.foldl_cons] at h
      rcases ih _ f h with h' | h'
      · rcases mem_recordSet v.files d.1 d.2 f h' with h'' | h''
        · exact Or.inl h''
        · exact Or.inr (by simp [h''])
      · exact Or.inr (List.mem_cons_of_mem _ h')

theorem createFold_key_mem (docs : List (String × String)) :
    ∀ (v : Vault) (k : String),
    (k ∈ v.files.map Prod.fst ∨ ∃ d ∈ docs, d.1 = k) →
    k ∈ ((docs.foldl (fun v d => vaultCreateFile v d.1 d.2) v).files.map Prod.fst) := by
  induction docs with
  | nil =>
      intro v k h
      rcases h with h | ⟨d, hd, _⟩
      · exact h
      · simp at hd
  | cons d rest ih =>
      intro v k h
      rw [List.foldl_cons]
      refine ih _ k ?_
      rcases h with h | ⟨d', hd', rfl⟩
      · exact Or.inl ((mem_keys_recordSet v.files d.1 k d.2).mpr (Or.inl h))
      · rcases List.mem_cons.mp hd' with rfl | hd''
        · exact Or.inl ((mem_keys_recordSet v.files d'.1 d'.1 d'.2).mpr (Or.inr rfl))
        · exact Or.inr ⟨d', hd'', rfl⟩

theorem createFold_keys_nodup (docs : List (String × String)) :
    ∀ (v : Vault), (v.files.map Prod.fst).Nodup →
    ((docs.foldl (fun v d => vaultCreateFile v d.1 d.2) v).files.map Prod.fst).Nodup := by
  induction docs with
  | nil => intro v h; exact h
  | cons d rest ih =>
      intro v h
      rw [List.foldl_cons]
      exact ih _ (keys_recordSet_nodup v.files d.1 d.2 h)

theorem clearedFolder_no_files (v : Vault) (folder : String)
    (hwf : ∀ f ∈ v.files, underFolder folder f.1 = true →
      vaultHasPath v folder = true) :
    ∀ f ∈ ((if vaultHasPath v folder then vaultDeleteRecursive v folder else v).files),
      underFolder folder f.1 = true → False := by
  intro f hf hu
  by_cases hp : vaultHasPath v folder
  · rw [if_pos hp] at hf
    have := List.mem_filter.mp hf
    have hdec := this.2
    rw [decide_eq_true_iff] at hdec
    exact hdec (Or.inr hu)
  · rw [if_neg hp] at hf
    exact hp (by simpa using hwf f hf hu)

/-- Under the four hypotheses (both database files found, both queries
answered), `syncHighlights` reduces to its success record. -/
theorem syncHighlights_success (inp : SyncInput) (f1 f2 : String) (annS booksS : String)
    (h1 : ((inp.annotationDirListing.getD []).filter
      (fun f => jsEndsWith f ".sqlite")).head? = some f1)
    (h2 : ((inp.booksDirListing.getD []).filter
      (fun f => jsEndsWith f ".sqlite")).head? = some f2)
    (h3 : inp.annotationExec = some annS)
    (h4 : inp.booksExec (booksDataSelectQuery
      (groupAnnotations ((splitRows annS).map splitFields))) = some booksS) :
    syncHighlights inp =
      { outcome := .completed,
        notices := ["Successfully finished Apple Books Highlight Sync"],
        annotationQueryRun := true,
        booksQueryRun := some (booksDataSelectQuery
          (groupAnnotations ((splitRows annS).map splitFields))),
        folderDeleted := vaultHasPath inp.vault inp.highlightsFolder,
        folderCreated := true,
        docsCreated := (joinBooks (groupAnnotations ((splitRows annS).map splitFields))
            ((splitRows booksS).map splitFields)).map
          (fun p => (docPath inp.highlightsFolder p.2, renderBody p.2)),
        vault := ((joinBooks (groupAnnotations ((splitRows annS).map splitFields))
            ((splitRows booksS).map splitFields)).map
          (fun p => (docPath inp.highlightsFolder p.2, renderBody p.2))).foldl
          (fun v d => vaultCreateFile v d.1 d.2)
          (vaultCreateFolder
            (if vaultHasPath inp.vault inp.highlightsFolder
              then vaultDeleteRecursive inp.vault inp.highlightsFolder
              else inp.vault)
            inp.highlightsFolder) } := by
  rw [syncHighlights]
  rw [h1]
  dsimp only
  rw [h2]
  dsimp only
  rw [h3]
  dsimp only
  rw [h4]

/-! ## Claim theorems -/

theorem underFolder_docPath (folder : String) (book : SyncedBook) :
    underFolder folder (docPath folder book) = true := by
  rw [underFolder, docPath]
  rw [List.isPrefixOf_iff_prefix]
  have h1 : folder ++ "/" ++ book.bookTitle ++ ".md" =
      (folder ++ "/") ++ (book.bookTitle ++ ".md") := by
    rw [String.append_assoc]
  rw [h1, String.data_append]
  exact List.prefix_append _ _

theorem cleared_keys_nodup (v : Vault) (folder : String)
    (h : (v.files.map Prod.fst).Nodup) :
    (((if vaultHasPath v folder then vaultDeleteRecursive v folder else v).files).map
      Prod.fst).Nodup := by
  by_cases hp : vaultHasPath v folder
  · rw [if_pos hp]
    exact h.sublist ((List.filter_sublist _).map Prod.fst)
  · rw [if_neg hp]
    exact h

/-- Every file that ends up inside the destination folder after a successful
sync is one of the documents created by that sync. -/
theorem sync_success_files_in_docs (inp : SyncInput) (f1 f2 annS booksS : String)
    (h1 : ((inp.annotationDirListing.getD []).filter
      (fun f => jsEndsWith f ".sqlite")).head? = some f1)
    (h2 : ((inp.booksDirListing.getD []).filter
      (fun f => jsEndsWith f ".sqlite")).head? = some f2)
    (h3 : inp.annotationExec = some annS)
    (h4 : inp.booksExec (booksDataSelectQuery
      (groupAnnotations ((splitRows annS).map splitFields))) = some booksS)
    (hwf : ∀ f ∈ inp.vault.files, underFolder inp.highlightsFolder f.1 = true →
      vaultHasPath inp.vault inp.highlightsFolder = true) :
    ∀ f ∈ (syncHighlights inp).vault.files,
      underFolder inp.highlightsFolder f.1 = true →
      f ∈ (syncHighlights inp).docsCreated := by
  rw [syncHighlights_success inp f1 f2 annS booksS h1 h2 h3 h4]
  intro f hf hu
  rcases createFold_files_mem _ _ f hf with h' | h'
  · exact absurd hu (by
      intro hu'
      exact clearedFolder_no_files inp.vault inp.highlightsFolder hwf f h' hu')
  · exact h'

/-- Every document created by a successful sync is present in the vault
afterwards (its path is a file key). -/
theorem sync_success_docs_in_vault (inp : SyncInput) (f1 f2 annS booksS : String)
    (h1 : ((inp.annotationDirListing.getD []).filter
      (fun f => jsEndsWith f ".sqlite")).head? = some f1)
    (h2 : ((inp.booksDirListing.getD []).filter
      (fun f => jsEndsWith f ".sqlite")).head? = some f2)
    (h3 : inp.annotationExec = some annS)
    (h4 : inp.booksExec (booksDataSelectQuery
      (groupAnnotations ((splitRows annS).map splitFields))) = some booksS) :
    ∀ d ∈ (syncHighlights inp).docsCreated,
      d.1 ∈ (syncHighlights inp).vault.files.map Prod.fst := by
  rw [syncHighlights_success inp f1 f2 annS booksS h1 h2 h3 h4]
  intro d hd
  exact createFold_key_mem _ _ d.1 (Or.inr ⟨d, hd, rfl⟩)

/-- Claim C1: for every annotation result and catalog result, the join emits
exactly the books whose `bookId` is both a key of the grouped-annotation map
and the first field of some catalog row; its size is at most the minimum of
the two key-set sizes; and the emitted `SyncedBook`s follow catalog-query
result order (their key sequence is a sublist of the catalog first-field
sequence). -/
theorem join_books_exact (ann : List (String × List HighlightData))
    (books : List (List String)) :
    (∀ bid : String, bid ∈ (joinBooks ann books).map Prod.fst ↔
      (bid ∈ ann.map Prod.fst ∧ bid ∈ books.map (fun r => jsIdx r 0)))
    ∧ (joinBooks ann books).length ≤
      min ((ann.map Prod.fst).toFinset.card)
        ((books.map (fun r => jsIdx r 0)).toFinset.card)
    ∧ List.Sublist ((joinBooks ann books).map Prod.fst)
        (books.map (fun r => jsIdx r 0)) := by
  have hmem : ∀ bid : String, bid ∈ (joinBooks ann books).map Prod.fst ↔
      (bid ∈ ann.map Prod.fst ∧ bid ∈ books.map (fun r => jsIdx r 0)) := by
    intro bid
    rw [joinBooks, joinGo_mem ann books [] bid, recordGet_isSome_iff]
    simp
    tauto
  have hnodup : ((joinBooks ann books).map Prod.fst).Nodup := by
    rw [joinBooks]
    exact joinGo_nodup ann books [] (by simp)
  have hsub : List.Sublist ((joinBooks ann books).map Prod.fst)
      (books.map (fun r => jsIdx r 0)) := by
    rw [joinBooks]
    simpa using joinGo_sublist ann books []
  refine ⟨hmem, ?_, hsub⟩
  have hlen : (joinBooks ann books).length =
      ((joinBooks ann books).map Prod.fst).length := (List.length_map _ _).symm
  rw [hlen, ← List.toFinset_card_of_nodup hnodup]
  refine le_min ?_ ?_
  · apply Finset.card_le_card
    intro x hx
    rw [List.mem_toFinset] at hx ⊢
    exact ((hmem x).mp hx).1
  · apply Finset.card_le_card
    intro x hx
    rw [List.mem_toFinset] at hx ⊢
    exact ((hmem x).mp hx).2

/-- Claim C6: grouping creates each `bookId`'s sequence on its first
occurrence (key order is first-occurrence order of the row first fields) and
the sequence for a `bookId` holds exactly the highlights of the rows bearing
that `bookId`, in source row order. -/
theorem group_annotations_exact (rows : List (List String)) :
    (∀ bid : String, recordGet (groupAnnotations rows) bid =
      if rows.any (fun r => jsIdx r 0 == bid)
      then some ((rows.filter (fun r => jsIdx r 0 == bid)).map
        (fun r => ⟨jsIdx r 1, jsIdx r 2⟩))
      else none)
    ∧ (groupAnnotations rows).map Prod.fst =
        dedupKeepFirst (rows.map (fun r => jsIdx r 0)) :=
  ⟨fun bid => groupAnnotations_get rows bid, groupAnnotations_keys rows⟩

/-- Claim C10: the join output holds at most one `SyncedBook` per `bookId`
(its key list is duplicate-free), and when the catalog result has several
rows with one `bookId` the entry is overwritten so the last such row's
author and title win, with the same highlight sequence. -/
theorem join_duplicate_bookId_last_wins (ann : List (String × List HighlightData))
    (books : List (List String)) :
    ((joinBooks ann books).map Prod.fst).Nodup
    ∧ ∀ (bid : String) (hl : List HighlightData), recordGet ann bid = some hl →
      recordGet (joinBooks ann books) bid =
        match (books.filter (fun r => jsIdx r 0 == bid)).getLast? with
        | some row => some ⟨bid, jsIdx row 1, jsIdx row 2, hl⟩
        | none => none := by
  constructor
  · rw [joinBooks]
    exact joinGo_nodup ann books [] (by simp)
  · intro bid hl h
    rw [joinBooks, joinGo_get ann books bid hl h []]
    cases (books.filter (fun r => jsIdx r 0 == bid)).getLast? <;> rfl

/-- Witness for C10: with one grouped `bookId` `"B1"` and two catalog rows
for `"B1"`, the joined entry carries the second row's author and title. -/
theorem join_duplicate_bookId_last_wins_witness :
    recordGet (joinBooks [("B1", [⟨"A1", "Great quote"⟩])]
      [["B1", "X", "T1"], ["B1", "Y", "T2"]]) "B1"
      = some ⟨"B1", "Y", "T2", [⟨"A1", "Great quote"⟩]⟩ := by
  have h := (join_duplicate_bookId_last_wins [("B1", [⟨"A1", "Great quote"⟩])]
    [["B1", "X", "T1"], ["B1", "Y", "T2"]]).2 "B1" [⟨"A1", "Great quote"⟩] (by decide)
  rw [h]
  decide

/-- Claim C5 (amended): encoding a field matrix with the two-level separator
scheme and parsing it back returns the original matrix, provided every field
contains neither separator sequence, no field other than the last of its row
ends with the field-separator character, no serialized row other than the
last ends with the row-separator character, and every row is non-empty when
serialized. -/
theorem separator_roundTrip (m : List (List String))
    (hfield : ∀ row ∈ m, ∀ f ∈ row,
      hasTriple '|' f.data = false ∧ hasTriple '@' f.data = false)
    (hfieldLast : ∀ row ∈ m, ∀ f ∈ row.dropLast, f.data.getLast? ≠ some '|')
    (hrowLast : ∀ row ∈ m.dropLast,
      (String.intercalate "|||" row).data.getLast? ≠ some '@')
    (hrowNe : ∀ row ∈ m, String.intercalate "|||" row ≠ "") :
    parseMatrix (encodeMatrix m) = m := by
  rw [parseMatrix, splitRows_encode m
    (fun row hrow => hasTriple_ser row (fun f hf => (hfield row hrow f hf).2))
    hrowLast hrowNe, List.map_map]
  calc m.map (splitFields ∘ String.intercalate "|||")
      = m.map id := List.map_congr_left (fun row hrow =>
        splitFields_intercalate row
          (fun f hf => (hfield row hrow f hf).1)
          (hfieldLast row hrow) (hrowNe row hrow))
    _ = m := List.map_id m

/-- Counterexample to C5 as stated: the matrix `[["a||", "b"]]` has fields
containing neither `"|||"` nor `"@@@"` and a non-empty serialized row, yet
the trailing pipes of the first field merge with the field separator, so the
blob `"a|||||b"` parses back as `[["a", "||b"]]`, not the original. -/
theorem separator_roundTrip_counterexample :
    (∀ f ∈ ["a||", "b"], hasTriple '|' f.data = false ∧ hasTriple '@' f.data = false)
    ∧ String.intercalate "|||" ["a||", "b"] ≠ ""
    ∧ parseMatrix (encodeMatrix [["a||", "b"]]) = [["a", "||b"]]
    ∧ parseMatrix (encodeMatrix [["a||", "b"]]) ≠ [["a||", "b"]] := by
  decide

/-- Witness for C5 (amended): a two-row, three-field matrix of plain fields
round-trips exactly. -/
theorem separator_roundTrip_witness :
    parseMatrix (encodeMatrix [["B1", "A1", "Great quote"], ["B2", "A2", "x"]]) =
      [["B1", "A1", "Great quote"], ["B2", "A2", "x"]] :=
  separator_roundTrip [["B1", "A1", "Great quote"], ["B2", "A2", "x"]]
    (by decide) (by decide) (by decide) (by decide)

/-- Claim C2: a container directory that cannot be listed behaves as an
empty listing, and when either container yields no `.sqlite` file the sync
stops at the store-specific "not found" notice: no query runs, the
destination folder is neither deleted nor created, no document is written,
and the vault is unchanged. -/
theorem sync_missing_database_aborts (inp : SyncInput) :
    (inp.annotationDirListing = none →
      syncHighlights inp = syncHighlights { inp with annotationDirListing := some [] })
    ∧ (inp.booksDirListing = none →
      syncHighlights inp = syncHighlights { inp with booksDirListing := some [] })
    ∧ (((inp.annotationDirListing.getD []).filter
        (fun f => jsEndsWith f ".sqlite")).head? = none →
      syncHighlights inp = abortedResult .annotationDBMissing
        ["Apple Books Annotation Database not found, cannot sync."] false none inp.vault)
    ∧ (∀ f1 : String,
      ((inp.annotationDirListing.getD []).filter
        (fun f => jsEndsWith f ".sqlite")).head? = some f1 →
      ((inp.booksDirListing.getD []).filter
        (fun f => jsEndsWith f ".sqlite")).head? = none →
      syncHighlights inp = abortedResult .booksDBMissing
        ["Apple Books Books Database not found, cannot sync."] false none inp.vault) := by
  refine ⟨fun h => ?_, fun h => ?_, fun h => ?_, fun f1 h1 h => ?_⟩
  · rw [syncHighlights, syncHighlights, h]
    rfl
  · rw [syncHighlights, syncHighlights, h]
    dsimp only
    cases ((inp.annotationDirListing.getD []).filter
      (fun f => jsEndsWith f ".sqlite")).head? with
    | none => rfl
    | some f1 => rfl
  · rw [syncHighlights]
    dsimp only
    rw [h]
  · rw [syncHighlights]
    dsimp only
    rw [h1]
    dsimp only
    rw [h]

/-- Witness for C2: a failed annotation listing behaves as empty; an empty
annotation container aborts with the annotation notice; a container with no
`.sqlite` entry aborts with the books notice; the pre-existing vault is
untouched in both aborts. -/
theorem sync_missing_database_aborts_witness :
    (syncHighlights ⟨none, some [], some "", fun _ => none, "H", ⟨["H"], [("H/a.md", "x")]⟩⟩ =
      syncHighlights ⟨some [], some [], some "", fun _ => none, "H", ⟨["H"], [("H/a.md", "x")]⟩⟩)
    ∧ (syncHighlights ⟨some [], some [], some "", fun _ => none, "H", ⟨["H"], [("H/a.md", "x")]⟩⟩ =
      abortedResult .annotationDBMissing
        ["Apple Books Annotation Database not found, cannot sync."] false none
        ⟨["H"], [("H/a.md", "x")]⟩)
    ∧ (syncHighlights ⟨some ["a.sqlite"], some ["note.txt"], some "", fun _ => none, "H",
        ⟨["H"], [("H/a.md", "x")]⟩⟩ =
      abortedResult .booksDBMissing
        ["Apple Books Books Database not found, cannot sync."] false none
        ⟨["H"], [("H/a.md", "x")]⟩) :=
  ⟨(sync_missing_database_aborts _).1 rfl,
   (sync_missing_database_aborts _).2.2.1 (by decide),
   (sync_missing_database_aborts _).2.2.2 "a.sqlite" (by decide) (by decide)⟩

theorem sync_docs_vault_independent (inp : SyncInput) (v : Vault) :
    (syncHighlights { inp with vault := v }).docsCreated =
      (syncHighlights inp).docsCreated := by
  rw [syncHighlights, syncHighlights]
  dsimp only
  cases ((inp.annotationDirListing.getD []).filter
    (fun f => jsEndsWith f ".sqlite")).head? with
  | none => rfl
  | some f1 =>
      dsimp only
      cases ((inp.booksDirListing.getD []).filter
        (fun f => jsEndsWith f ".sqlite")).head? with
      | none => rfl
      | some f2 =>
          dsimp only
          cases inp.annotationExec with
          | none => rfl
          | some annS =>
              dsimp only
              cases inp.booksExec (booksDataSelectQuery
                (groupAnnotations ((splitRows annS).map splitFields))) with
              | none => rfl
              | some booksS => rfl

/-- Claim C7: the documents produced by a sync depend only on the query
results, not on the starting vault state, so a second run over unchanged
source data reproduces a byte-identical document set (same names, same
contents). -/
theorem sync_idempotent_deterministic (inp : SyncInput) :
    (syncHighlights { inp with vault := (syncHighlights inp).vault }).docsCreated
      = (syncHighlights inp).docsCreated
    ∧ ∀ v v' : Vault,
      (syncHighlights { inp with vault := v }).docsCreated
        = (syncHighlights { inp with vault := v' }).docsCreated :=
  ⟨sync_docs_vault_independent inp _,
   fun v v' => (sync_docs_vault_independent inp v).trans
     (sync_docs_vault_independent inp v').symm⟩

/-- Claim C9: when both database files are found but the annotation query
yields no rows, the grouped map is empty and the catalog query string ends
in the invalid empty IN-list `"ZASSETID in ()"`; given that the query engine
rejects that statement, the sync aborts with no notice, no folder deletion,
no folder creation, no documents, and an unchanged vault. -/
theorem empty_annotations_invalid_query (inp : SyncInput) (f1 f2 annS : String)
    (h1 : ((inp.annotationDirListing.getD []).filter
      (fun f => jsEndsWith f ".sqlite")).head? = some f1)
    (h2 : ((inp.booksDirListing.getD []).filter
      (fun f => jsEndsWith f ".sqlite")).head? = some f2)
    (h3 : inp.annotationExec = some annS)
    (h4 : splitRows annS = [])
    (h5 : inp.booksExec
      "SELECT ZASSETID,ZAUTHOR,ZTITLE from ZBKLIBRARYASSET where ZASSETID in ()" = none) :
    groupAnnotations ((splitRows annS).map splitFields) = []
    ∧ booksDataSelectQuery (groupAnnotations ((splitRows annS).map splitFields))
      = "SELECT ZASSETID,ZAUTHOR,ZTITLE from ZBKLIBRARYASSET where ZASSETID in ()"
    ∧ syncHighlights inp = abortedResult .booksExecFailed [] true
      (some "SELECT ZASSETID,ZAUTHOR,ZTITLE from ZBKLIBRARYASSET where ZASSETID in ()")
      inp.vault := by
  have hg : groupAnnotations ((splitRows annS).map splitFields) = [] := by
    rw [h4]
    rfl
  have hq : booksDataSelectQuery (groupAnnotations ((splitRows annS).map splitFields))
      = "SELECT ZASSETID,ZAUTHOR,ZTITLE from ZBKLIBRARYASSET where ZASSETID in ()" := by
    rw [hg]
    rfl
  refine ⟨hg, hq, ?_⟩
  rw [syncHighlights]
  dsimp only
  rw [h1]
  dsimp only
  rw [h2]
  dsimp only
  rw [h3]
  dsimp only
  rw [hq, h5]

/-- Claim C3: a successful sync deletes the destination folder when it
exists, recreates it, creates exactly one document per `SyncedBook` at the
folder-joined title path, and leaves no other file inside the folder. -/
theorem sync_success_full_replace (inp : SyncInput) (f1 f2 annS booksS : String)
    (h1 : ((inp.annotationDirListing.getD []).filter
      (fun f => jsEndsWith f ".sqlite")).head? = some f1)
    (h2 : ((inp.booksDirListing.getD []).filter
      (fun f => jsEndsWith f ".sqlite")).head? = some f2)
    (h3 : inp.annotationExec = some annS)
    (h4 : inp.booksExec (booksDataSelectQuery
      (groupAnnotations ((splitRows annS).map splitFields))) = some booksS)
    (hwf : ∀ f ∈ inp.vault.files, underFolder inp.highlightsFolder f.1 = true →
      vaultHasPath inp.vault inp.highlightsFolder = true) :
    (syncHighlights inp).outcome = .completed
    ∧ (syncHighlights inp).folderDeleted = vaultHasPath inp.vault inp.highlightsFolder
    ∧ (syncHighlights inp).folderCreated = true
    ∧ (syncHighlights inp).docsCreated =
        (joinBooks (groupAnnotations ((splitRows annS).map splitFields))
          ((splitRows booksS).map splitFields)).map
          (fun p => (docPath inp.highlightsFolder p.2, renderBody p.2))
    ∧ (∀ f ∈ (syncHighlights inp).vault.files,
        underFolder inp.highlightsFolder f.1 = true →
        f ∈ (syncHighlights inp).docsCreated)
    ∧ (∀ d ∈ (syncHighlights inp).docsCreated,
        d.1 ∈ (syncHighlights inp).vault.files.map Prod.fst) := by
  refine ⟨?_, ?_, ?_, ?_,
    sync_success_files_in_docs inp f1 f2 annS booksS h1 h2 h3 h4 hwf,
    sync_success_docs_in_vault inp f1 f2 annS booksS h1 h2 h3 h4⟩ <;>
    rw [syncHighlights_success inp f1 f2 annS booksS h1 h2 h3 h4]

/-- Witness for C3: a concrete run over an existing destination folder with
a stale file completes, deletes the folder, and emits the expected single
document. -/
theorem sync_success_full_replace_witness :
    (syncHighlights ⟨some ["a.sqlite"], some ["b.sqlite"],
      some "B1|||A1|||Great quote@@@B1|||A2|||Another line@@@",
      fun _ => some "B1|||Jane Doe|||My Book@@@", "H",
      ⟨["H"], [("H/old.md", "junk")]⟩⟩).outcome = SyncOutcome.completed
    ∧ (syncHighlights ⟨some ["a.sqlite"], some ["b.sqlite"],
      some "B1|||A1|||Great quote@@@B1|||A2|||Another line@@@",
      fun _ => some "B1|||Jane Doe|||My Book@@@", "H",
      ⟨["H"], [("H/old.md", "junk")]⟩⟩).folderDeleted = true := by
  have h := sync_success_full_replace ⟨some ["a.sqlite"], some ["b.sqlite"],
    some "B1|||A1|||Great quote@@@B1|||A2|||Another line@@@",
    fun _ => some "B1|||Jane Doe|||My Book@@@", "H",
    ⟨["H"], [("H/old.md", "junk")]⟩⟩ "a.sqlite" "b.sqlite"
    "B1|||A1|||Great quote@@@B1|||A2|||Another line@@@"
    "B1|||Jane Doe|||My Book@@@" (by decide) (by decide) rfl rfl (by decide)
  exact ⟨h.1, h.2.1.trans (by decide)⟩

/-- Claim C4: every rendered document is a metadata section containing the
author name and a deep link containing the `bookId`, followed by a
highlights section with the selected texts in grouped order separated by a
horizontal rule; the `("B1","Jane Doe","My Book")` scenario produces exactly
the expected `My Book.md` document. -/
theorem render_document_structure :
    (∀ b : SyncedBook, ∃ m pre1 post1 pre2 post2 : String,
      renderBody b = m ++ ("## Highlights\n" ++
        String.intercalate "\n\n---\n" (b.highlights.map HighlightData.selectedText))
      ∧ m = pre1 ++ b.authorName ++ post1
      ∧ m = pre2 ++ ("ibooks://assetid/" ++ b.bookId) ++ post2)
    ∧ (syncHighlights ⟨some ["a.sqlite"], some ["b.sqlite"],
        some "B1|||A1|||Great quote@@@B1|||A2|||Another line@@@",
        fun _ => some "B1|||Jane Doe|||My Book@@@", "Apple Books Highlights",
        ⟨[], []⟩⟩).docsCreated =
      [("Apple Books Highlights/My Book.md",
        "## Metadata\n- Author: Jane Doe\n- [Apple Books Link](ibooks://assetid/B1)\n\n## Highlights\nGreat quote\n\n---\nAnother line")] := by
  constructor
  · intro b
    refine ⟨"## Metadata\n- Author: " ++ b.authorName ++
        "\n- [Apple Books Link](ibooks://assetid/" ++ b.bookId ++ ")\n\n",
      "## Metadata\n- Author: ",
      "\n- [Apple Books Link](ibooks://assetid/" ++ b.bookId ++ ")\n\n",
      "## Metadata\n- Author: " ++ b.authorName ++ "\n- [Apple Books Link](",
      ")\n\n", ?_, ?_, ?_⟩
    · rw [renderBody]
      simp only [String.append_assoc]
      have e3 : ∀ X : String, (")\n\n## Highlights\n" : String) ++ X =
          ")\n\n" ++ ("## Highlights\n" ++ X) := by
        intro X
        rw [← String.append_assoc]
        rfl
      rw [e3]
    · simp [String.append_assoc]
    · simp only [String.append_assoc]
      have e4 : ∀ X : String, ("\n- [Apple Books Link](ibooks://assetid/" : String) ++ X =
          "\n- [Apple Books Link](" ++ ("ibooks://assetid/" ++ X) := by
        intro X
        rw [← String.append_assoc]
        rfl
      rw [e4]
  · decide

/-- Claim C8: two distinct joined books with the same title map to the same
output path, and after the write phase exactly one document exists at that
path, and it is one of the sync's own documents. -/
theorem duplicate_title_single_document (inp : SyncInput) (f1 f2 annS booksS : String)
    (h1 : ((inp.annotationDirListing.getD []).filter
      (fun f => jsEndsWith f ".sqlite")).head? = some f1)
    (h2 : ((inp.booksDirListing.getD []).filter
      (fun f => jsEndsWith f ".sqlite")).head? = some f2)
    (h3 : inp.annotationExec = some annS)
    (h4 : inp.booksExec (booksDataSelectQuery
      (groupAnnotations ((splitRows annS).map splitFields))) = some booksS)
    (hwf : ∀ f ∈ inp.vault.files, underFolder inp.highlightsFolder f.1 = true →
      vaultHasPath inp.vault inp.highlightsFolder = true)
    (hnodup : (inp.vault.files.map Prod.fst).Nodup)
    (b1 b2 : SyncedBook)
    (hb1 : b1 ∈ (joinBooks (groupAnnotations ((splitRows annS).map splitFields))
      ((splitRows booksS).map splitFields)).map Prod.snd)
    (_hb2 : b2 ∈ (joinBooks (groupAnnotations ((splitRows annS).map splitFields))
      ((splitRows booksS).map splitFields)).map Prod.snd)
    (_hne : b1 ≠ b2) (htitle : b1.bookTitle = b2.bookTitle) :
    docPath inp.highlightsFolder b1 = docPath inp.highlightsFolder b2
    ∧ ((syncHighlights inp).vault.files.map Prod.fst).count
        (docPath inp.highlightsFolder b1) = 1
    ∧ (∀ f ∈ (syncHighlights inp).vault.files,
        f.1 = docPath inp.highlightsFolder b1 →
        f ∈ (syncHighlights inp).docsCreated) := by
  refine ⟨by rw [docPath, docPath, htitle], ?_, ?_⟩
  · rw [syncHighlights_success inp f1 f2 annS booksS h1 h2 h3 h4]
    refine List.count_eq_one_of_mem ?_ ?_
    · exact createFold_keys_nodup _ _ (cleared_keys_nodup inp.vault inp.highlightsFolder hnodup)
    · refine createFold_key_mem _ _ _ (Or.inr ?_)
      obtain ⟨p, hp, rfl⟩ := List.mem_map.mp hb1
      exact ⟨(docPath inp.highlightsFolder p.2, renderBody p.2),
        List.mem_map_of_mem _ hp, rfl⟩
  · intro f hf heq
    refine sync_success_files_in_docs inp f1 f2 annS booksS h1 h2 h3 h4 hwf f hf ?_
    rw [heq]
    exact underFolder_docPath inp.highlightsFolder b1

/-- Witness for C8: two books with distinct ids but the shared title "Same"
leave exactly one `H/Same.md` in the vault. -/
theorem duplicate_title_single_document_witness :
    ((syncHighlights ⟨some ["a.sqlite"], some ["b.sqlite"],
      some "B1|||A1|||q1@@@B2|||A2|||q2@@@",
      fun _ => some "B1|||X|||Same@@@B2|||Y|||Same@@@", "H",
      ⟨["H"], [("H/old.md", "junk")]⟩⟩).vault.files.map Prod.fst).count
      (docPath "H" ⟨"B1", "X", "Same", [⟨"A1", "q1"⟩]⟩) = 1 :=
  (duplicate_title_single_document ⟨some ["a.sqlite"], some ["b.sqlite"],
    some "B1|||A1|||q1@@@B2|||A2|||q2@@@",
    fun _ => some "B1|||X|||Same@@@B2|||Y|||Same@@@", "H",
    ⟨["H"], [("H/old.md", "junk")]⟩⟩ "a.sqlite" "b.sqlite"
    "B1|||A1|||q1@@@B2|||A2|||q2@@@" "B1|||X|||Same@@@B2|||Y|||Same@@@"
    (by decide) (by decide) rfl rfl (by decide) (by decide)
    ⟨"B1", "X", "Same", [⟨"A1", "q1"⟩]⟩ ⟨"B2", "Y", "Same", [⟨"A2", "q2"⟩]⟩
    (by decide) (by decide) (by decide) rfl).2.1

/-- Witness for C9: empty annotation output on a concrete run leaves the
vault untouched and records the empty IN-list query as the failure point. -/
theorem empty_annotations_invalid_query_witness :
    syncHighlights ⟨some ["a.sqlite"], some ["b.sqlite"], some "", fun _ => none, "H",
        ⟨["H"], [("H/a.md", "x")]⟩⟩ =
      abortedResult .booksExecFailed [] true
        (some "SELECT ZASSETID,ZAUTHOR,ZTITLE from ZBKLIBRARYASSET where ZASSETID in ()")
        ⟨["H"], [("H/a.md", "x")]⟩ :=
  (empty_annotations_invalid_query _ "a.sqlite" "b.sqlite" ""
    (by decide) (by decide) rfl (by decide) rfl).2.2

end AppleBooks
